import Mathlib

set_option maxRecDepth 4000

/-!
Verification of the sudoku-to-LP encoder (`src/main.rs`).

The program converts a normalized sudoku puzzle string (4x4, 6x6 or 9x9,
`'0'` marking blanks) into a binary integer linear program and renders it
in LP text format.  We embed the encoder (`generate`) and the formatter
(the `fmt::Display` impl for `LpInfo`) as pure Lean functions, faithful to
the Rust source, and prove the specification claims about them.
-/

/-- Relational operator with right-hand side, mirroring `enum Equality`
in the source (`EQ` for `=`, `GE` for `>=`). -/
inductive Equality where
  | EQ : Int → Equality
  | GE : Int → Equality
deriving DecidableEq

/-- The ILP model, mirroring `struct LpInfo`: objective coefficients,
right-hand sides `b`, and the constraint list (each constraint an ordered
list of (variable-index, coefficient) pairs). -/
structure LpInfo where
  objective : List Int
  b : List Equality
  constraints : List (List (Nat × Int))
deriving DecidableEq

/-- The variable-index closure `x` from `generate`:
`|row, col, value| row * size * size + col * size + value`. -/
def x (size row col value : Nat) : Nat :=
  row * size * size + col * size + value

/-- The geometry match at the top of `generate`: puzzle length determines
`(size, box_rows, box_cols)`, any other length is rejected. -/
def geometry : Nat → Option (Nat × Nat × Nat)
  | 81 => some (9, 3, 3)
  | 36 => some (6, 2, 3)
  | 16 => some (4, 2, 2)
  | _ => none

/-- Cell-fill constraints: for each (row, col), the `size` variables of
that cell over all values (source lines 64-70). -/
def cellConstraints (size : Nat) : List (List (Nat × Int)) :=
  (List.range size).flatMap fun row =>
    (List.range size).map fun col =>
      (List.range size).map fun v => (x size row col v, (1 : Int))

/-- Row-uniqueness constraints: for each (row, value), the `size`
variables of that row across all columns (source lines 73-79). -/
def rowConstraints (size : Nat) : List (List (Nat × Int)) :=
  (List.range size).flatMap fun row =>
    (List.range size).map fun v =>
      (List.range size).map fun col => (x size row col v, (1 : Int))

/-- Column-uniqueness constraints: for each (col, value), the `size`
variables of that column across all rows (source lines 82-88). -/
def colConstraints (size : Nat) : List (List (Nat × Int)) :=
  (List.range size).flatMap fun col =>
    (List.range size).map fun v =>
      (List.range size).map fun row => (x size row col v, (1 : Int))

/-- The subgrid's top-left corner as computed in `generate`:
`start_row = subgrid / (size / box_cols) * box_rows`,
`start_col = subgrid % (size / box_cols) * box_cols`. -/
def boxStart (size box_rows box_cols subgrid : Nat) : Nat × Nat :=
  (subgrid / (size / box_cols) * box_rows, subgrid % (size / box_cols) * box_cols)

/-- One box-uniqueness constraint for subgrid `subgrid` and value `v`:
the `box_rows * box_cols` variables of that box (source lines 94-102). -/
def boxConstraintFor (size box_rows box_cols subgrid v : Nat) : List (Nat × Int) :=
  (List.range box_rows).flatMap fun r =>
    (List.range box_cols).map fun c =>
      (x size (r + (boxStart size box_rows box_cols subgrid).1)
              (c + (boxStart size box_rows box_cols subgrid).2) v, (1 : Int))

/-- Box-uniqueness constraints: for each subgrid and value (source lines
91-106). -/
def boxConstraints (size box_rows box_cols : Nat) : List (List (Nat × Int)) :=
  (List.range size).flatMap fun subgrid =>
    (List.range size).map fun v => boxConstraintFor size box_rows box_cols subgrid v

/-- The clue constraint built from the puzzle (source lines 109-120): one
term per non-`'0'` character, at flat position `i` holding digit `d` the
variable `x (i / size) (i % size) (d - 1)`; `d` is the character's decimal
value (`to_digit`), total here since the puzzle is normalized to digits. -/
def clueConstraint (size : Nat) (puzzle : List Char) : List (Nat × Int) :=
  (puzzle.enum.filter fun ic => ic.2 ≠ '0').map fun ic =>
    (x size (ic.1 / size) (ic.1 % size) ((ic.2.toNat - 48) - 1), (1 : Int))

/-- The four structural constraint families in emission order. -/
def structuralConstraints (size box_rows box_cols : Nat) : List (List (Nat × Int)) :=
  cellConstraints size ++ rowConstraints size ++ colConstraints size ++
    boxConstraints size box_rows box_cols

/-- The encoder `generate`: normalized puzzle string to `LpInfo`, failing
exactly when the length is not 81, 36 or 16 (source lines 48-130).  Each
structural constraint is pushed together with an `EQ 1` right-hand side;
the final clue constraint gets `GE (number of clue terms)`. -/
def generate (puzzle : List Char) : Except String LpInfo :=
  match geometry puzzle.length with
  | none => Except.error "Expected 9x9, 6x6, or 4x4 puzzle"
  | some (size, box_rows, box_cols) =>
    let structural := structuralConstraints size box_rows box_cols
    let clue := clueConstraint size puzzle
    Except.ok
      { objective := List.replicate (size * size * size) (1 : Int)
        b := structural.map (fun _ => Equality.EQ 1) ++ [Equality.GE (clue.length : Int)]
        constraints := structural ++ [clue] }

/-- Variable name `x<index>` as produced by `format!("x{i}")`. -/
def varName (i : Nat) : String :=
  "x" ++ Nat.repr i

/-- `fmt::Display for Equality`: `EQ v` renders as `" = v"` (leading
space), `GE v` as `">= v"`. -/
def Equality.display : Equality → String
  | Equality.EQ v => " = " ++ Int.repr v
  | Equality.GE v => ">= " ++ Int.repr v

/-- `constraint2eqn`: coefficient-variable terms joined by `" + "`,
followed by a space and the rendered relational operator with rhs. -/
def constraint2eqn (constraint : List (Nat × Int)) (rhs : Equality) : String :=
  String.intercalate " + "
    (constraint.map fun iv => Int.repr iv.2 ++ " " ++ varName iv.1) ++ " " ++ rhs.display

/-- The lines written by `fmt::Display for LpInfo` (source lines 132-147),
in order: `Minimize`, `0`, `Subject To`, one line per constraint zipped
with its rhs, `Binary`, the space-joined variable names for indices
`0..objective.len()`, `End`. -/
def LpInfo.displayLines (lp : LpInfo) : List String :=
  ["Minimize", "0", "Subject To"] ++
    ((lp.constraints.zip lp.b).map fun cb => constraint2eqn cb.1 cb.2) ++
    ["Binary", String.intercalate " " ((List.range lp.objective.length).map varName), "End"]

/-- The full formatted text: each line followed by a newline, matching the
sequence of `writeln!` calls. -/
def LpInfo.display (lp : LpInfo) : String :=
  String.join (lp.displayLines.map fun line => line ++ "\n")

/-- The whole pure pipeline: encode then format. -/
def formatPuzzle (puzzle : List Char) : Except String String :=
  (generate puzzle).map LpInfo.display

/-- Follows the spec's words (for comparison with the code's formatter):
an objective line rendering the objective vector as a sum of
coefficient-variable-name terms joined by `+`. -/
def specObjectiveLine (objective : List Int) : String :=
  String.intercalate " + "
    (objective.enum.map fun p => Int.repr p.2 ++ " " ++ varName p.1)

/-! ## Helper lemmas -/

/-- Decimal value of a character string, used to invert `Nat.repr`. -/
def strVal (s : String) : Nat :=
  s.data.foldl (fun a c => a * 10 + (c.toNat - 48)) 0

theorem digitChar_val : ∀ m, m < 10 → (Nat.digitChar m).toNat - 48 = m := by decide

theorem foldl_toDigitsCore (fuel : Nat) : ∀ n acc a, 0 < fuel → n < 10 ^ fuel →
    ∃ k, 0 < k ∧ n < 10 ^ k ∧
      List.foldl (fun a c => a * 10 + (c.toNat - 48)) a (Nat.toDigitsCore 10 fuel n acc) =
        List.foldl (fun a c => a * 10 + (c.toNat - 48)) (a * 10 ^ k + n) acc := by
  induction fuel with
  | zero => intro n acc a h; omega
  | succ fuel ih =>
    intro n acc a _ hn
    simp only [Nat.toDigitsCore]
    by_cases h10 : n / 10 = 0
    · refine ⟨1, Nat.one_pos, by omega, ?_⟩
      simp only [h10, if_pos, List.foldl_cons, pow_one]
      rw [digitChar_val (n % 10) (by omega)]
      have : n % 10 = n := by omega
      rw [this]
    · have hfuel : 0 < fuel := by
        rcases Nat.eq_zero_or_pos fuel with h0 | h0
        · subst h0; simp at hn; omega
        · exact h0
      have hdiv : n / 10 < 10 ^ fuel := by
        have : n < 10 ^ fuel * 10 := by rw [← pow_succ]; exact hn
        omega
      obtain ⟨k, hk, hnk, heq⟩ := ih (n / 10) (Nat.digitChar (n % 10) :: acc) a hfuel hdiv
      rw [if_neg h10]
      refine ⟨k + 1, by omega, ?_, ?_⟩
      · have : n < 10 ^ k * 10 := by omega
        rw [pow_succ]; exact this
      · rw [heq]
        simp only [List.foldl_cons]
        rw [digitChar_val (n % 10) (by omega)]
        have h1 : (a * 10 ^ k + n / 10) * 10 + n % 10 =
            a * 10 ^ (k + 1) + (n / 10 * 10 + n % 10) := by ring
        have h2 : n / 10 * 10 + n % 10 = n := by omega
        rw [h1, h2]

theorem strVal_repr (n : Nat) : strVal (Nat.repr n) = n := by
  have hlt : n < 10 ^ (n + 1) := by
    have h1 : n + 1 < 10 ^ (n + 1) := Nat.lt_pow_self (by norm_num) _
    omega
  obtain ⟨k, _, _, heq⟩ := foldl_toDigitsCore (n + 1) n [] 0 (Nat.succ_pos n) hlt
  show List.foldl _ 0 (Nat.repr n).data = n
  have hdata : (Nat.repr n).data = Nat.toDigitsCore 10 (n + 1) n [] := rfl
  rw [hdata, heq]
  simp

theorem repr_injective : Function.Injective Nat.repr := by
  intro a b h
  rw [← strVal_repr a, ← strVal_repr b, h]

theorem varName_injective : Function.Injective varName := by
  intro a b h
  apply repr_injective
  have hdata := congrArg String.data h
  simp only [varName, String.data_append] at hdata
  exact String.ext (by simpa using hdata)

theorem geometry_cases {L size box_rows box_cols : Nat}
    (hg : geometry L = some (size, box_rows, box_cols)) :
    (L = 16 ∧ size = 4 ∧ box_rows = 2 ∧ box_cols = 2) ∨
    (L = 36 ∧ size = 6 ∧ box_rows = 2 ∧ box_cols = 3) ∨
    (L = 81 ∧ size = 9 ∧ box_rows = 3 ∧ box_cols = 3) := by
  unfold geometry at hg
  split at hg <;> simp_all <;> omega

theorem geometry_eq_none {L : Nat} :
    geometry L = none ↔ ¬(L = 16 ∨ L = 36 ∨ L = 81) := by
  unfold geometry
  split <;> simp_all

theorem generate_eq (puzzle : List Char) (size box_rows box_cols : Nat)
    (hg : geometry puzzle.length = some (size, box_rows, box_cols)) :
    generate puzzle = Except.ok
      { objective := List.replicate (size * size * size) (1 : Int)
        b := (structuralConstraints size box_rows box_cols).map (fun _ => Equality.EQ 1) ++
          [Equality.GE ((clueConstraint size puzzle).length : Int)]
        constraints := structuralConstraints size box_rows box_cols ++
          [clueConstraint size puzzle] } := by
  unfold generate
  rw [hg]

theorem length_cellConstraints (s : Nat) : (cellConstraints s).length = s * s := by
  simp [cellConstraints, List.length_flatMap, Function.comp_def, List.map_const',
    List.sum_const_nat]

theorem length_rowConstraints (s : Nat) : (rowConstraints s).length = s * s := by
  simp [rowConstraints, List.length_flatMap, Function.comp_def, List.map_const',
    List.sum_const_nat]

theorem length_colConstraints (s : Nat) : (colConstraints s).length = s * s := by
  simp [colConstraints, List.length_flatMap, Function.comp_def, List.map_const',
    List.sum_const_nat]

theorem length_boxConstraints (s br bc : Nat) :
    (boxConstraints s br bc).length = s * s := by
  simp [boxConstraints, List.length_flatMap, Function.comp_def, List.map_const',
    List.sum_const_nat]

theorem length_structuralConstraints (s br bc : Nat) :
    (structuralConstraints s br bc).length = 4 * (s * s) := by
  simp [structuralConstraints, length_cellConstraints, length_rowConstraints,
    length_colConstraints, length_boxConstraints]
  ring

theorem x_decode (size row col value : Nat) (hr : row < size) (hc : col < size)
    (hv : value < size) :
    x size row col value / (size * size) = row ∧
    x size row col value / size % size = col ∧
    x size row col value % size = value := by
  have hs : 0 < size := by omega
  have hx1 : x size row col value = size * (row * size + col) + value := by
    unfold x; ring
  have hmod : x size row col value % size = value := by
    rw [hx1, Nat.mul_add_mod, Nat.mod_eq_of_lt hv]
  have hdiv : x size row col value / size = row * size + col := by
    rw [hx1, Nat.mul_add_div hs, Nat.div_eq_of_lt hv, Nat.add_zero]
  have hx2 : x size row col value = size * size * row + (col * size + value) := by
    unfold x; ring
  have hsmall : col * size + value < size * size := by
    calc col * size + value + 1 ≤ col * size + size := by omega
      _ = (col + 1) * size := by ring
      _ ≤ size * size := Nat.mul_le_mul_right size hc
  refine ⟨?_, ?_, hmod⟩
  · rw [hx2, Nat.mul_add_div (Nat.mul_pos hs hs), Nat.div_eq_of_lt hsmall, Nat.add_zero]
  · have hrc : row * size + col = size * row + col := by ring
    rw [hdiv, hrc, Nat.mul_add_mod, Nat.mod_eq_of_lt hc]

theorem x_lt_cube (size row col value : Nat) (hr : row < size) (hc : col < size)
    (hv : value < size) : x size row col value < size ^ 3 := by
  have : x size row col value + 1 ≤ size ^ 3 := by
    calc x size row col value + 1 = row * size * size + col * size + value + 1 := rfl
      _ ≤ row * size * size + col * size + size := by omega
      _ = row * size * size + (col + 1) * size := by ring
      _ ≤ row * size * size + size * size := Nat.add_le_add_left (Nat.mul_le_mul_right size hc) _
      _ = (row + 1) * (size * size) := by ring
      _ ≤ size * (size * size) := Nat.mul_le_mul_right (size * size) hr
      _ = size ^ 3 := by ring
  omega

/-- C3: the variable index function `(row, col, value) ↦ row*size² + col*size + value`
is a bijection from `[0,size)³` onto `[0,size³)`: the index is below `size³`,
div/mod decoding recovers the triple, distinct triples give distinct indices,
and every index below `size³` is hit. -/
theorem x_bijection (size row col value : Nat) (hr : row < size) (hc : col < size)
    (hv : value < size) :
    x size row col value < size ^ 3 ∧
    x size row col value / (size * size) = row ∧
    x size row col value / size % size = col ∧
    x size row col value % size = value ∧
    (∀ r' c' v', r' < size → c' < size → v' < size →
      x size r' c' v' = x size row col value → r' = row ∧ c' = col ∧ v' = value) ∧
    (∀ n, n < size ^ 3 → ∃ r' c' v', r' < size ∧ c' < size ∧ v' < size ∧
      x size r' c' v' = n) := by
  have hs : 0 < size := by omega
  obtain ⟨hd1, hd2, hd3⟩ := x_decode size row col value hr hc hv
  refine ⟨x_lt_cube size row col value hr hc hv, hd1, hd2, hd3, ?_, ?_⟩
  · intro r' c' v' hr' hc' hv' heq
    obtain ⟨he1, he2, he3⟩ := x_decode size r' c' v' hr' hc' hv'
    rw [heq] at he1 he2 he3
    rw [hd1] at he1
    rw [hd2] at he2
    rw [hd3] at he3
    exact ⟨he1.symm, he2.symm, he3.symm⟩
  · intro n hn
    have hddm : n / (size * size) = n / size / size := (Nat.div_div_eq_div_mul n size size).symm
    refine ⟨n / (size * size), n / size % size, n % size, ?_, Nat.mod_lt _ hs, Nat.mod_lt _ hs, ?_⟩
    · rw [Nat.div_lt_iff_lt_mul (Nat.mul_pos hs hs)]
      calc n < size ^ 3 := hn
        _ = size * (size * size) := by ring
    · calc x size (n / (size * size)) (n / size % size) (n % size)
          = size * (size * (n / size / size) + n / size % size) + n % size := by
            rw [hddm]; unfold x; ring
        _ = size * (n / size) + n % size := by rw [Nat.div_add_mod]
        _ = n := Nat.div_add_mod n size

/-- Witness for C3 at size 9, triple (8, 7, 6). -/
theorem x_bijection_witness :
    x 9 8 7 6 < 9 ^ 3 ∧
    x 9 8 7 6 / (9 * 9) = 8 ∧
    x 9 8 7 6 / 9 % 9 = 7 ∧
    x 9 8 7 6 % 9 = 6 ∧
    (∀ r' c' v', r' < 9 → c' < 9 → v' < 9 →
      x 9 r' c' v' = x 9 8 7 6 → r' = 8 ∧ c' = 7 ∧ v' = 6) ∧
    (∀ n, n < 9 ^ 3 → ∃ r' c' v', r' < 9 ∧ c' < 9 ∧ v' < 9 ∧ x 9 r' c' v' = n) :=
  x_bijection 9 8 7 6 (by decide) (by decide) (by decide)

/-- C1: for every puzzle string of supported length (16, 36, or 81),
`generate` returns a model whose constraint list has exactly
`4 * size ^ 2 + 1` entries (size = 4, 6, 9 respectively), with the
right-hand-side list `b` of the same length. -/
theorem generate_constraint_count (puzzle : List Char)
    (h : puzzle.length = 16 ∨ puzzle.length = 36 ∨ puzzle.length = 81) :
    ∃ lp size, generate puzzle = Except.ok lp ∧
      ((puzzle.length = 16 ∧ size = 4) ∨ (puzzle.length = 36 ∧ size = 6) ∨
        (puzzle.length = 81 ∧ size = 9)) ∧
      lp.constraints.length = 4 * size ^ 2 + 1 ∧
      lp.b.length = 4 * size ^ 2 + 1 := by
  rcases h with h | h | h
  · refine ⟨_, 4, generate_eq puzzle 4 2 2 (by rw [h]; rfl), Or.inl ⟨h, rfl⟩, ?_, ?_⟩ <;>
      simp [length_structuralConstraints]
  · refine ⟨_, 6, generate_eq puzzle 6 2 3 (by rw [h]; rfl), Or.inr (Or.inl ⟨h, rfl⟩), ?_, ?_⟩ <;>
      simp [length_structuralConstraints]
  · refine ⟨_, 9, generate_eq puzzle 9 3 3 (by rw [h]; rfl), Or.inr (Or.inr ⟨h, rfl⟩), ?_, ?_⟩ <;>
      simp [length_structuralConstraints]

/-- Witness for C1 at the all-blank 6x6 puzzle. -/
theorem generate_constraint_count_witness :
    ∃ lp size, generate (List.replicate 36 '0') = Except.ok lp ∧
      (((List.replicate 36 '0').length = 16 ∧ size = 4) ∨
        ((List.replicate 36 '0').length = 36 ∧ size = 6) ∨
        ((List.replicate 36 '0').length = 81 ∧ size = 9)) ∧
      lp.constraints.length = 4 * size ^ 2 + 1 ∧
      lp.b.length = 4 * size ^ 2 + 1 :=
  generate_constraint_count (List.replicate 36 '0') (Or.inr (Or.inl (by simp)))

/-- C2: `generate` succeeds if and only if the input length is 16, 36, or
81; otherwise it fails with the single error value (the
invalid-puzzle-size message), producing no model.  No other validation is
performed: success depends only on the length. -/
theorem generate_ok_iff_supported_length (puzzle : List Char) :
    ((∃ lp, generate puzzle = Except.ok lp) ↔
      (puzzle.length = 16 ∨ puzzle.length = 36 ∨ puzzle.length = 81)) ∧
    (generate puzzle = Except.error "Expected 9x9, 6x6, or 4x4 puzzle" ↔
      ¬(puzzle.length = 16 ∨ puzzle.length = 36 ∨ puzzle.length = 81)) := by
  cases hg : geometry puzzle.length with
  | none =>
    have hlen := geometry_eq_none.mp hg
    refine ⟨⟨?_, fun h => absurd h hlen⟩, ⟨fun _ => hlen, fun _ => ?_⟩⟩
    · rintro ⟨lp, hlp⟩
      unfold generate at hlp
      rw [hg] at hlp
      cases hlp
    · unfold generate
      rw [hg]
  | some g =>
    obtain ⟨size, br, bc⟩ := g
    have heq := generate_eq puzzle size br bc hg
    have hlen : puzzle.length = 16 ∨ puzzle.length = 36 ∨ puzzle.length = 81 := by
      rcases geometry_cases hg with ⟨h, _⟩ | ⟨h, _⟩ | ⟨h, _⟩ <;> simp [h]
    refine ⟨⟨fun _ => hlen, fun _ => ⟨_, heq⟩⟩, ⟨?_, fun h => absurd hlen h⟩⟩
    intro herr
    rw [heq] at herr
    cases herr

/-- C9: the encode-then-format pipeline is deterministic — two runs on the
same puzzle produce the same output text. -/
theorem formatPuzzle_deterministic (puzzle : List Char) (out₁ out₂ : String)
    (h₁ : formatPuzzle puzzle = Except.ok out₁)
    (h₂ : formatPuzzle puzzle = Except.ok out₂) :
    out₁ = out₂ := by
  rw [h₁] at h₂
  injection h₂

/-- Witness for C9 at the all-blank 4x4 puzzle. -/
theorem formatPuzzle_deterministic_witness :
    formatPuzzle (List.replicate 16 '0') = formatPuzzle (List.replicate 16 '0') := by
  have heq := generate_eq (List.replicate 16 '0') 4 2 2 rfl
  have h₁ : formatPuzzle (List.replicate 16 '0') =
      Except.ok (LpInfo.display
        { objective := List.replicate (4 * 4 * 4) (1 : Int)
          b := (structuralConstraints 4 2 2).map (fun _ => Equality.EQ 1) ++
            [Equality.GE ((clueConstraint 4 (List.replicate 16 '0')).length : Int)]
          constraints := structuralConstraints 4 2 2 ++
            [clueConstraint 4 (List.replicate 16 '0')] }) := by
    unfold formatPuzzle
    rw [heq]
    rfl
  have hd := formatPuzzle_deterministic (List.replicate 16 '0') _ _ h₁ h₁
  exact h₁.trans (hd.symm ▸ h₁.symm)

theorem length_filter_enumFrom_snd {α : Type} (q : α → Bool) (l : List α) :
    ∀ n, ((l.enumFrom n).filter fun ic => q ic.2).length = (l.filter q).length := by
  induction l with
  | nil => intro n; rfl
  | cons a l ih =>
    intro n
    simp only [List.enumFrom_cons, List.filter_cons]
    cases q a <;> simp [ih]

theorem length_clueConstraint (size : Nat) (puzzle : List Char) :
    (clueConstraint size puzzle).length = (puzzle.filter fun c => c ≠ '0').length := by
  unfold clueConstraint
  rw [List.length_map]
  exact length_filter_enumFrom_snd (fun c => c ≠ '0') puzzle 0

/-- C4: for every puzzle of supported length, `generate` emits exactly one
clue constraint, the last in the list, with operator `>=`: one term
(coefficient 1) per non-blank cell — the term for flat position `i` holding
digit `d` being the variable `(row = i / size, col = i % size, value = d - 1)`
— and right-hand side equal to the number of non-blank cells (so `>= 0`
with zero terms when all cells are blank, `>= 1` with one term for a single
clue). -/
theorem generate_clue_constraint (puzzle : List Char) (size box_rows box_cols : Nat)
    (hg : geometry puzzle.length = some (size, box_rows, box_cols)) :
    ∃ lp, generate puzzle = Except.ok lp ∧
      lp.constraints.getLast? = some (clueConstraint size puzzle) ∧
      lp.b.getLast? =
        some (Equality.GE (((puzzle.filter fun c => c ≠ '0').length : Nat) : Int)) ∧
      (clueConstraint size puzzle).length = (puzzle.filter fun c => c ≠ '0').length ∧
      (∀ t ∈ clueConstraint size puzzle, t.2 = 1) ∧
      (∀ i c, puzzle[i]? = some c → c ≠ '0' →
        (x size (i / size) (i % size) ((c.toNat - 48) - 1), (1 : Int)) ∈
          clueConstraint size puzzle) ∧
      (∀ t ∈ clueConstraint size puzzle, ∃ i c, puzzle[i]? = some c ∧ c ≠ '0' ∧
        t = (x size (i / size) (i % size) ((c.toNat - 48) - 1), (1 : Int))) := by
  refine ⟨_, generate_eq puzzle size box_rows box_cols hg, ?_, ?_, length_clueConstraint size puzzle, ?_, ?_, ?_⟩
  · exact List.getLast?_concat _
  · show (List.map _ (structuralConstraints size box_rows box_cols) ++ [_]).getLast? = _
    rw [List.getLast?_concat, length_clueConstraint]
  · intro t ht
    unfold clueConstraint at ht
    obtain ⟨ic, _, rfl⟩ := List.mem_map.mp ht
    rfl
  · intro i c hget hc
    unfold clueConstraint
    apply List.mem_map.mpr
    refine ⟨(i, c), ?_, rfl⟩
    apply List.mem_filter.mpr
    exact ⟨List.mk_mem_enum_iff_getElem?.mpr hget, by simpa using hc⟩
  · intro t ht
    unfold clueConstraint at ht
    obtain ⟨ic, hic, rfl⟩ := List.mem_map.mp ht
    obtain ⟨hmem, hpred⟩ := List.mem_filter.mp hic
    obtain ⟨i, c⟩ := ic
    exact ⟨i, c, List.mk_mem_enum_iff_getElem?.mp hmem, by simpa using hpred, rfl⟩

/-- Witness for C4 at the 4x4 puzzle with a single clue `2` at flat
position 5 (row 1, col 1): the clue constraint has exactly one term and
right-hand side 1. -/
theorem generate_clue_constraint_witness :
    ∃ lp, generate ("0000020000000000".toList) = Except.ok lp ∧
      lp.constraints.getLast? = some (clueConstraint 4 "0000020000000000".toList) ∧
      lp.b.getLast? =
        some (Equality.GE ((("0000020000000000".toList.filter fun c => c ≠ '0').length : Nat) : Int)) ∧
      (clueConstraint 4 "0000020000000000".toList).length =
        ("0000020000000000".toList.filter fun c => c ≠ '0').length ∧
      (∀ t ∈ clueConstraint 4 "0000020000000000".toList, t.2 = 1) ∧
      (∀ i c, "0000020000000000".toList[i]? = some c → c ≠ '0' →
        (x 4 (i / 4) (i % 4) ((c.toNat - 48) - 1), (1 : Int)) ∈
          clueConstraint 4 "0000020000000000".toList) ∧
      (∀ t ∈ clueConstraint 4 "0000020000000000".toList, ∃ i c,
        "0000020000000000".toList[i]? = some c ∧ c ≠ '0' ∧
        t = (x 4 (i / 4) (i % 4) ((c.toNat - 48) - 1), (1 : Int))) :=
  generate_clue_constraint "0000020000000000".toList 4 2 2 (by rfl)

theorem getElem?_flatMap_uniform {β : Type} (f : Nat → List β) (m : Nat)
    (hlen : ∀ i, (f i).length = m) :
    ∀ n b v, b < n → v < m → ((List.range n).flatMap f)[b * m + v]? = (f b)[v]? := by
  intro n
  induction n with
  | zero => omega
  | succ n ih =>
    intro b v hb hv
    rw [List.range_succ, List.flatMap_append]
    have hpre : ((List.range n).flatMap f).length = n * m := by
      simp [List.length_flatMap, Function.comp_def, hlen, List.map_const', List.sum_const_nat]
    by_cases hbn : b < n
    · have hidx : b * m + v < ((List.range n).flatMap f).length := by
        rw [hpre]
        calc b * m + v + 1 ≤ b * m + m := by omega
          _ = (b + 1) * m := by ring
          _ ≤ n * m := Nat.mul_le_mul_right m hbn
      rw [List.getElem?_append_left hidx]
      exact ih b v hbn hv
    · have hbe : b = n := by omega
      subst hbe
      have hge : ((List.range b).flatMap f).length ≤ b * m + v :=
        hpre.le.trans (Nat.le_add_right (b * m) v)
      rw [List.getElem?_append_right hge, hpre]
      have hsub : b * m + v - b * m = v := by omega
      rw [hsub]
      simp

/-- C5: for every box index `b < size`, the box-uniqueness constraint for
`(b, v)` sits at position `b * size + v` of the box family and consists of
the variables of the box whose top-left corner is
`boxStart = (b / (size/box_cols) * box_rows, b % (size/box_cols) * box_cols)`,
spanning `box_rows` rows and `box_cols` columns; in particular for the 6x6
geometry box 1's corner is `(0, 3)` and box 2's is `(2, 0)`. -/
theorem box_constraints_geometry (size box_rows box_cols : Nat) :
    (∀ b v, b < size → v < size →
      (boxConstraints size box_rows box_cols)[b * size + v]? =
        some (boxConstraintFor size box_rows box_cols b v)) ∧
    (∀ b v idx coef, ((idx, coef) ∈ boxConstraintFor size box_rows box_cols b v ↔
      ∃ r c, r < box_rows ∧ c < box_cols ∧
        idx = x size (r + (boxStart size box_rows box_cols b).1)
                     (c + (boxStart size box_rows box_cols b).2) v ∧ coef = 1)) ∧
    (∀ b v, (boxConstraintFor size box_rows box_cols b v).length = box_rows * box_cols) ∧
    boxStart 6 2 3 1 = (0, 3) ∧ boxStart 6 2 3 2 = (2, 0) := by
  refine ⟨?_, ?_, ?_, rfl, rfl⟩
  · intro b v hb hv
    rw [boxConstraints,
      getElem?_flatMap_uniform _ size (fun i => by simp) size b v hb hv]
    simp [hv]
  · intro b v idx coef
    constructor
    · intro hmem
      unfold boxConstraintFor at hmem
      obtain ⟨r, hr, hmem2⟩ := by simpa [List.mem_flatMap, List.mem_range] using hmem
      obtain ⟨c, hc, heq1, heq2⟩ := by simpa [List.mem_map, List.mem_range] using hmem2
      exact ⟨r, c, hr, hc, heq1.symm, heq2.symm⟩
    · rintro ⟨r, c, hr, hc, rfl, rfl⟩
      unfold boxConstraintFor
      simp only [List.mem_flatMap, List.mem_map, List.mem_range]
      exact ⟨r, hr, c, hc, rfl⟩
  · intro b v
    simp [boxConstraintFor, List.length_flatMap, Function.comp_def, List.map_const',
      List.sum_const_nat]

/-- Witness for C5 in the 6x6 geometry: box 2, value 0 sits at position
`2 * 6 + 0` and the corner facts hold. -/
theorem box_constraints_geometry_witness :
    (boxConstraints 6 2 3)[2 * 6 + 0]? = some (boxConstraintFor 6 2 3 2 0) ∧
    boxStart 6 2 3 1 = (0, 3) ∧ boxStart 6 2 3 2 = (2, 0) :=
  ⟨(box_constraints_geometry 6 2 3).1 2 0 (by decide) (by decide),
    (box_constraints_geometry 6 2 3).2.2.2⟩

/-- C6 counterexample: for the all-blank 4x4 puzzle the model's objective
is the all-ones vector of length 64, yet the formatted objective section
(the line following the `Minimize` header) is the literal `0`, not the
spec-prescribed sum of coefficient-variable terms. -/
theorem objective_render_counterexample :
    ∃ lp, generate (List.replicate 16 '0') = Except.ok lp ∧
      lp.objective = List.replicate 64 (1 : Int) ∧
      lp.displayLines[1]? = some "0" ∧
      specObjectiveLine lp.objective ≠ "0" := by
  refine ⟨_, generate_eq (List.replicate 16 '0') 4 2 2 rfl, rfl, rfl, ?_⟩
  decide

/-- C6 (amended): the model's objective is the all-ones vector of length
`size³`, but the formatter never renders it — the objective section is the
literal line `0` after the `Minimize` header, before `Subject To`. -/
theorem objective_section_constant_zero (puzzle : List Char) (size box_rows box_cols : Nat)
    (hg : geometry puzzle.length = some (size, box_rows, box_cols)) :
    ∃ lp, generate puzzle = Except.ok lp ∧
      lp.objective = List.replicate (size * size * size) (1 : Int) ∧
      lp.displayLines[0]? = some "Minimize" ∧
      lp.displayLines[1]? = some "0" ∧
      lp.displayLines[2]? = some "Subject To" := by
  refine ⟨_, generate_eq puzzle size box_rows box_cols hg, rfl, ?_, ?_, ?_⟩ <;>
    simp [LpInfo.displayLines]

/-- Witness for the amended C6 at the all-blank 9x9 puzzle. -/
theorem objective_section_constant_zero_witness :
    ∃ lp, generate (List.replicate 81 '0') = Except.ok lp ∧
      lp.objective = List.replicate (9 * 9 * 9) (1 : Int) ∧
      lp.displayLines[0]? = some "Minimize" ∧
      lp.displayLines[1]? = some "0" ∧
      lp.displayLines[2]? = some "Subject To" :=
  objective_section_constant_zero (List.replicate 81 '0') 9 3 3 (by rfl)

/-- C7: for every model produced by `generate`, the `Binary` section line
is the space-joined list of names `x0 .. x<size³-1>` taken in ascending
index order with no gaps (`List.range`), each name occurring exactly once
(the name list has no duplicates), `size³` names in total. -/
theorem binary_section_lists_all_vars (puzzle : List Char) (size box_rows box_cols : Nat)
    (hg : geometry puzzle.length = some (size, box_rows, box_cols)) :
    ∃ lp, generate puzzle = Except.ok lp ∧
      lp.displayLines.drop (3 + (4 * size ^ 2 + 1)) =
        ["Binary", String.intercalate " " ((List.range (size * size * size)).map varName),
          "End"] ∧
      ((List.range (size * size * size)).map varName).Nodup ∧
      ((List.range (size * size * size)).map varName).length = size * size * size := by
  refine ⟨_, generate_eq puzzle size box_rows box_cols hg, ?_,
    List.Nodup.map varName_injective (List.nodup_range _), by simp⟩
  simp only [LpInfo.displayLines, List.length_replicate]
  apply List.drop_left'
  simp only [List.length_append, List.length_map, List.length_zip,
    length_structuralConstraints, List.length_cons, List.length_nil, Nat.min_self]
  ring

/-- Witness for C7 at the 4x4 puzzle `1000020000300004`: all 64 names,
65 constraints. -/
theorem binary_section_lists_all_vars_witness :
    ∃ lp, generate "1000020000300004".toList = Except.ok lp ∧
      lp.displayLines.drop (3 + (4 * 4 ^ 2 + 1)) =
        ["Binary", String.intercalate " " ((List.range (4 * 4 * 4)).map varName), "End"] ∧
      ((List.range (4 * 4 * 4)).map varName).Nodup ∧
      ((List.range (4 * 4 * 4)).map varName).length = 4 * 4 * 4 :=
  binary_section_lists_all_vars "1000020000300004".toList 4 2 2 (by rfl)

/-- C8: constraints are emitted in the fixed order cell-fill (size²),
row-uniqueness (size²), column-uniqueness (size²), box-uniqueness (size²),
then the single clue constraint; every structural right-hand side is the
equality `= 1` and only the final clue constraint is a `>=` inequality. -/
theorem generate_constraint_order (puzzle : List Char) (size box_rows box_cols : Nat)
    (hg : geometry puzzle.length = some (size, box_rows, box_cols)) :
    ∃ lp, generate puzzle = Except.ok lp ∧
      lp.constraints = cellConstraints size ++ rowConstraints size ++ colConstraints size ++
        boxConstraints size box_rows box_cols ++ [clueConstraint size puzzle] ∧
      (cellConstraints size).length = size ^ 2 ∧
      (rowConstraints size).length = size ^ 2 ∧
      (colConstraints size).length = size ^ 2 ∧
      (boxConstraints size box_rows box_cols).length = size ^ 2 ∧
      lp.b.dropLast = List.replicate (4 * size ^ 2) (Equality.EQ 1) ∧
      lp.b.getLast? = some (Equality.GE ((clueConstraint size puzzle).length : Int)) := by
  have h4 : 4 * (size * size) = 4 * size ^ 2 := by ring
  refine ⟨_, generate_eq puzzle size box_rows box_cols hg, ?_, ?_, ?_, ?_, ?_, ?_, ?_⟩
  · simp [structuralConstraints]
  · rw [length_cellConstraints]; ring
  · rw [length_rowConstraints]; ring
  · rw [length_colConstraints]; ring
  · rw [length_boxConstraints]; ring
  · show ((structuralConstraints size box_rows box_cols).map _ ++ [_]).dropLast = _
    rw [List.dropLast_concat, List.map_const', length_structuralConstraints, h4]
  · exact List.getLast?_concat _

/-- Witness for C8 at the all-blank 6x6 puzzle. -/
theorem generate_constraint_order_witness :
    ∃ lp, generate (List.replicate 36 '0') = Except.ok lp ∧
      lp.constraints = cellConstraints 6 ++ rowConstraints 6 ++ colConstraints 6 ++
        boxConstraints 6 2 3 ++ [clueConstraint 6 (List.replicate 36 '0')] ∧
      (cellConstraints 6).length = 6 ^ 2 ∧
      (rowConstraints 6).length = 6 ^ 2 ∧
      (colConstraints 6).length = 6 ^ 2 ∧
      (boxConstraints 6 2 3).length = 6 ^ 2 ∧
      lp.b.dropLast = List.replicate (4 * 6 ^ 2) (Equality.EQ 1) ∧
      lp.b.getLast? =
        some (Equality.GE ((clueConstraint 6 (List.replicate 36 '0')).length : Int)) :=
  generate_constraint_order (List.replicate 36 '0') 6 2 3 (by rfl)

theorem mem_cellConstraints_bound (size : Nat) (cons : List (Nat × Int))
    (h : cons ∈ cellConstraints size) : ∀ t ∈ cons, t.1 < size ^ 3 ∧ t.2 = 1 := by
  simp only [cellConstraints, List.mem_flatMap, List.mem_map, List.mem_range] at h
  obtain ⟨row, hrow, col, hcol, rfl⟩ := h
  intro t ht
  simp only [List.mem_map, List.mem_range] at ht
  obtain ⟨v, hv, rfl⟩ := ht
  exact ⟨x_lt_cube size row col v hrow hcol hv, rfl⟩

theorem mem_rowConstraints_bound (size : Nat) (cons : List (Nat × Int))
    (h : cons ∈ rowConstraints size) : ∀ t ∈ cons, t.1 < size ^ 3 ∧ t.2 = 1 := by
  simp only [rowConstraints, List.mem_flatMap, List.mem_map, List.mem_range] at h
  obtain ⟨row, hrow, v, hv, rfl⟩ := h
  intro t ht
  simp only [List.mem_map, List.mem_range] at ht
  obtain ⟨col, hcol, rfl⟩ := ht
  exact ⟨x_lt_cube size row col v hrow hcol hv, rfl⟩

theorem mem_colConstraints_bound (size : Nat) (cons : List (Nat × Int))
    (h : cons ∈ colConstraints size) : ∀ t ∈ cons, t.1 < size ^ 3 ∧ t.2 = 1 := by
  simp only [colConstraints, List.mem_flatMap, List.mem_map, List.mem_range] at h
  obtain ⟨col, hcol, v, hv, rfl⟩ := h
  intro t ht
  simp only [List.mem_map, List.mem_range] at ht
  obtain ⟨row, hrow, rfl⟩ := ht
  exact ⟨x_lt_cube size row col v hrow hcol hv, rfl⟩

theorem mem_boxConstraints_bound (size box_rows box_cols : Nat)
    (hbox : ∀ sg r c, sg < size → r < box_rows → c < box_cols →
      r + (boxStart size box_rows box_cols sg).1 < size ∧
      c + (boxStart size box_rows box_cols sg).2 < size)
    (cons : List (Nat × Int)) (h : cons ∈ boxConstraints size box_rows box_cols) :
    ∀ t ∈ cons, t.1 < size ^ 3 ∧ t.2 = 1 := by
  simp only [boxConstraints, List.mem_flatMap, List.mem_map, List.mem_range] at h
  obtain ⟨sg, hsg, v, hv, rfl⟩ := h
  intro t ht
  simp only [boxConstraintFor, List.mem_flatMap, List.mem_map, List.mem_range] at ht
  obtain ⟨r, hr, c, hc, rfl⟩ := ht
  obtain ⟨h1, h2⟩ := hbox sg r c hsg hr hc
  exact ⟨x_lt_cube size _ _ v h1 h2 hv, rfl⟩

theorem mem_clueConstraint_bound (size : Nat) (puzzle : List Char)
    (hs : 0 < size) (hL : puzzle.length = size * size)
    (hdig : ∀ c ∈ puzzle, c ≠ '0' → 1 ≤ c.toNat - 48 ∧ c.toNat - 48 ≤ size) :
    ∀ t ∈ clueConstraint size puzzle, t.1 < size ^ 3 ∧ t.2 = 1 := by
  intro t ht
  unfold clueConstraint at ht
  obtain ⟨ic, hic, rfl⟩ := List.mem_map.mp ht
  obtain ⟨hmem, hpred⟩ := List.mem_filter.mp hic
  obtain ⟨i, c⟩ := ic
  have hget := List.mk_mem_enum_iff_getElem?.mp hmem
  have hiL : i < puzzle.length := by
    by_contra hge
    rw [List.getElem?_eq_none (by omega)] at hget
    cases hget
  have hcmem : c ∈ puzzle := List.getElem?_mem hget
  have hc0 : c ≠ '0' := by simpa using hpred
  obtain ⟨hd1, hd2⟩ := hdig c hcmem hc0
  have hrow : i / size < size := by
    rw [Nat.div_lt_iff_lt_mul hs]
    rw [hL] at hiL
    exact hiL
  have hcol : i % size < size := Nat.mod_lt _ hs
  have hval : c.toNat - 48 - 1 < size := by omega
  exact ⟨x_lt_cube size _ _ _ hrow hcol hval, rfl⟩

/-- C10: for every puzzle of supported length whose non-blank characters
are digits `d` with `1 ≤ d ≤ size`, every (index, coefficient) pair in
every constraint has index below `size³` (so every used variable is
declared in the Binary section, whose names cover exactly the indices
below `objective.length = size³`) and coefficient 1.  `generate` succeeds
without ever checking this digit-range precondition. -/
theorem generate_terms_bounded (puzzle : List Char) (size box_rows box_cols : Nat)
    (hg : geometry puzzle.length = some (size, box_rows, box_cols)) :
    ∃ lp, generate puzzle = Except.ok lp ∧
      lp.objective.length = size ^ 3 ∧
      ((∀ c ∈ puzzle, c ≠ '0' → 1 ≤ c.toNat - 48 ∧ c.toNat - 48 ≤ size) →
        ∀ cons ∈ lp.constraints, ∀ t ∈ cons, t.1 < size ^ 3 ∧ t.2 = 1) := by
  have hcases := geometry_cases hg
  have hs : 0 < size := by
    rcases hcases with ⟨-, h, -, -⟩ | ⟨-, h, -, -⟩ | ⟨-, h, -, -⟩ <;> omega
  have hL : puzzle.length = size * size := by
    rcases hcases with ⟨h1, h2, -, -⟩ | ⟨h1, h2, -, -⟩ | ⟨h1, h2, -, -⟩ <;>
      rw [h1, h2]
  have hbox : ∀ sg r c, sg < size → r < box_rows → c < box_cols →
      r + (boxStart size box_rows box_cols sg).1 < size ∧
      c + (boxStart size box_rows box_cols sg).2 < size := by
    rcases hcases with ⟨-, h1, h2, h3⟩ | ⟨-, h1, h2, h3⟩ | ⟨-, h1, h2, h3⟩ <;>
      subst h1 <;> subst h2 <;> subst h3 <;>
      (intro sg r c hsg hr hc; dsimp only [boxStart]; omega)
  refine ⟨_, generate_eq puzzle size box_rows box_cols hg, ?_, ?_⟩
  · simp only [List.length_replicate]
    ring
  · intro hdig cons hcons t ht
    rcases List.mem_append.mp hcons with hstr | hclue
    · unfold structuralConstraints at hstr
      rcases List.mem_append.mp hstr with h3 | hbx
      · rcases List.mem_append.mp h3 with h2 | hcl
        · rcases List.mem_append.mp h2 with hce | hrw
          · exact mem_cellConstraints_bound size cons hce t ht
          · exact mem_rowConstraints_bound size cons hrw t ht
        · exact mem_colConstraints_bound size cons hcl t ht
      · exact mem_boxConstraints_bound size box_rows box_cols hbox cons hbx t ht
    · have hc : cons = clueConstraint size puzzle := by simpa using hclue
      subst hc
      exact mem_clueConstraint_bound size puzzle hs hL hdig t ht

/-- Witness for C10 at the 4x4 puzzle `1000020000300004`. -/
theorem generate_terms_bounded_witness :
    ∃ lp, generate "1000020000300004".toList = Except.ok lp ∧
      lp.objective.length = 4 ^ 3 ∧
      ((∀ c ∈ "1000020000300004".toList, c ≠ '0' →
          1 ≤ c.toNat - 48 ∧ c.toNat - 48 ≤ 4) →
        ∀ cons ∈ lp.constraints, ∀ t ∈ cons, t.1 < 4 ^ 3 ∧ t.2 = 1) :=
  generate_terms_bounded "1000020000300004".toList 4 2 2 (by rfl)
